import Mathlib

/-!
Verification development for the `pomp` interactive terminal application
(`src/main.rs` and `src/cmds/base64.rs`).

Modelling conventions:
* The rope-backed input (`ropey::Rope`) is modelled as `List Char`, indexed by
  character offset exactly as the source indexes the rope by char index.
* Rust `String` values (the working buffer, messages, command names) are
  modelled as Lean `String`.
* The undo and redo stacks are Rust `Vec<String>` with the oldest entry at
  index 0 and `push`/`pop` acting on the far end.  They are modelled as Lean
  lists with the NEWEST entry at the head: Rust `push` is `::`, Rust `pop`
  takes the head, and Rust `remove(0)` (evicting the oldest entry) is
  `dropLast`.
* External collaborators (the clipboard and the transform crates called from
  `handle_command`: the `base64` engine, `serde_json`, `lightningcss`, `sha2`,
  `uuid`, `cuid`) are passed in as an explicit record `Ext` of abstract
  functions; `handle_command` mirrors the branch structure of the source
  around them.
* Rust `str::starts_with` is `strStartsWith` (prefix of the char list), and
  `str::lines` is `rustLines` (split on the newline character, dropping a
  final empty segment).
-/

/-- Model of `struct App` from `src/main.rs` (minus the `clipboard` handle,
which is an external resource and is modelled in `ExtCap`). -/
structure AppState where
  exit : Bool
  input : List Char
  cursor_pos : Nat
  buffer : String
  scroll_pos : Nat
  error_message : Option String
  info_message : Option String
  autocomplete_index : Option Nat
  input_scroll_line : Nat
  undo_stack : List String
  redo_stack : List String
deriving DecidableEq, Repr

/-- The `App::default()` state (clipboard omitted). -/
def appDefault : AppState :=
  { exit := false
    input := []
    cursor_pos := 0
    buffer := ""
    scroll_pos := 0
    error_message := none
    info_message := some "Press / to show available commands"
    autocomplete_index := none
    input_scroll_line := 0
    undo_stack := []
    redo_stack := [] }

/-- Constant `MAX_STACK_SIZE` from `App::push_undo`. -/
def MAX_STACK_SIZE : Nat := 500

/-- Model of `App::push_undo`: push the current buffer (cons at the head,
since the head is the newest entry), evict the oldest entry (`remove(0)`,
here `dropLast`) when the length exceeds `MAX_STACK_SIZE`, and clear the
redo stack. -/
def push_undo (s : AppState) : AppState :=
  let u := s.buffer :: s.undo_stack
  let u := if u.length > MAX_STACK_SIZE then u.dropLast else u
  { s with undo_stack := u, redo_stack := [] }

/-- Model of `App::undo`: pop the newest undo entry (if any), push the
current buffer on the redo stack, restore the popped buffer, reset the
output scroll, and set the info message. -/
def undo (s : AppState) : AppState :=
  match s.undo_stack with
  | [] => s
  | previous_buffer :: rest =>
      { s with
        redo_stack := s.buffer :: s.redo_stack
        undo_stack := rest
        buffer := previous_buffer
        scroll_pos := 0
        info_message := some "Undo" }

/-- Model of `App::redo`: symmetric to `undo`. -/
def redo (s : AppState) : AppState :=
  match s.redo_stack with
  | [] => s
  | next_buffer :: rest =>
      { s with
        undo_stack := s.buffer :: s.undo_stack
        redo_stack := rest
        buffer := next_buffer
        scroll_pos := 0
        info_message := some "Redo" }

/-- One step of the character scan in `App::get_cursor_line_col`: a newline
advances the line and resets the column, anything else advances the column. -/
def lineColStep : Nat × Nat → Char → Nat × Nat
  | (line, col), ch => if ch = '\n' then (line + 1, 0) else (line, col + 1)

/-- Model of `App::get_cursor_line_col`: scan the characters before the
cursor offset (the loop breaks at `i >= cursor_pos`, so exactly the first
`pos` characters are folded). -/
def get_cursor_line_col (text : List Char) (pos : Nat) : Nat × Nat :=
  (text.take pos).foldl lineColStep (0, 0)

/-- The scanning loop of `App::set_cursor_from_line_col`, with the running
`line`, `col` and `pos` variables made explicit.  Each branch mirrors one
break condition of the source loop. -/
def set_cursor_loop (target_line target_col : Nat) :
    List Char → Nat → Nat → Nat → Nat
  | [], _, _, pos => pos
  | ch :: rest, line, col, pos =>
      if line = target_line ∧ col = target_col then pos
      else if line > target_line then pos
      else if ch = '\n' then
        if line = target_line then pos
        else set_cursor_loop target_line target_col rest (line + 1) 0 (pos + 1)
      else set_cursor_loop target_line target_col rest line (col + 1) (pos + 1)

/-- Model of `App::set_cursor_from_line_col`: run the scanning loop from the
start of the text and return the final `pos`. -/
def set_cursor_from_line_col (text : List Char) (target_line target_col : Nat) : Nat :=
  set_cursor_loop target_line target_col text 0 0 0

/-- Constant `max_visible_lines` used by `App::adjust_input_scroll` (and the
input viewport rendering). -/
def max_visible_lines : Nat := 5

/-- Model of `App::adjust_input_scroll`: two sequential conditional updates
of `input_scroll_line` driven by the cursor line. -/
def adjust_input_scroll (s : AppState) : AppState :=
  let current_line := (get_cursor_line_col s.input s.cursor_pos).1
  let s :=
    if current_line ≥ s.input_scroll_line + max_visible_lines then
      { s with input_scroll_line := current_line - max_visible_lines + 1 }
    else s
  let s :=
    if current_line < s.input_scroll_line then
      { s with input_scroll_line := current_line }
    else s
  s

/-- Model of `App::get_available_commands`: the command registry, in
declaration order. -/
def get_available_commands : List String :=
  ["/base64-decode", "/base64-encode", "/copy", "/css-format", "/css-minify",
   "/cuid", "/exit", "/json-format", "/json-minify", "/sha-256", "/uuid"]

/-- Model of Rust `str::starts_with`: the pattern is a character-level
prefix of the string. -/
def strStartsWith (s pat : String) : Bool :=
  pat.data.isPrefixOf s.data

/-- Model of `App::get_filtered_commands` as a function of the input text:
empty unless the input starts with the slash character, otherwise the
registered commands having the input as a prefix, in declaration order. -/
def get_filtered_commands (input_text : String) : List String :=
  if ¬ strStartsWith input_text "/" then []
  else get_available_commands.filter (fun cmd => strStartsWith cmd input_text)

/-- Model of Rust `str::lines` on a character list: split on the newline
character and drop a final empty segment (so a trailing newline does not
produce an extra line), with the empty text producing no lines. -/
def rustLines (l : List Char) : List (List Char) :=
  if l = [] then []
  else
    let parts := l.splitOn '\n'
    if l.getLast? = some '\n' then parts.dropLast else parts

/-- Number of lines of a text, as computed by `text.lines().count()`. -/
def rustLinesCount (l : List Char) : Nat :=
  (rustLines l).length

/-- Model of a control character (ASCII C0 range or DEL), used only to state
the side condition of the round-trip claim. -/
def charIsControl (c : Char) : Bool :=
  c.toNat < 32 || c.toNat == 127

/-- The state change of a command dispatch whose transform succeeds and
replaces the buffer: the success path of `App::handle_command` (snapshot the
buffer into the undo stack, clear both messages, replace the buffer with the
transform output and reset the output scroll).  The bridging theorem
`handle_command_success_path` identifies this with `handle_command` on a
successful transform. -/
def dispatch_success (s : AppState) (out : String) : AppState :=
  let s := push_undo s
  let s := { s with error_message := none, info_message := none }
  { s with buffer := out, scroll_pos := 0 }

/-- Dispatching a list of succeeding commands in order, `bs` being the list
of transform outputs `B1..BN`. -/
def dispatchList (s : AppState) (bs : List String) : AppState :=
  bs.foldl dispatch_success s

/-- The sequence of undo snapshots (newest first) recorded while dispatching
the outputs `bs` starting from buffer `b0`: for `bs = [B1, .., BN]` this is
`[B(N-1), .., B1, b0]`. -/
def hist (b0 : String) : List String → List String
  | [] => []
  | b :: bs => hist b bs ++ [b0]

/-- Result of the serde pipeline parse-then-pretty-print used by the JSON
commands: formatted output, a printing failure, or a parse error carrying
its message. -/
inductive JsonR where
  | ok (out : String)
  | printErr
  | parseErr (e : String)

/-- Result of the lightningcss parse-then-print pipeline of `/css-format`. -/
inductive CssFormatR where
  | ok (out : String)
  | printErr
  | parseErr (e : String)

/-- Result of the lightningcss parse-minify-print pipeline of `/css-minify`. -/
inductive CssMinifyR where
  | ok (out : String)
  | printErr
  | minifyErr (e : String)
  | parseErr (e : String)

/-- The external collaborators of `App`: the clipboard and the transform
crates invoked by `handle_command` (the `base64` engine used directly by
`main.rs`, `String::from_utf8`, `serde_json`, `lightningcss`, `sha2`,
`uuid`, `cuid`).  Each is an abstract function; `handle_command` mirrors
the branch structure of the source around them. -/
structure ExtCap where
  clipboardGet : Option String
  clipboardSet : String → Bool
  stdB64Decode : String → Option (List Nat)
  fromUtf8 : List Nat → Option String
  stdB64Encode : String → String
  jsonFormat : String → JsonR
  jsonMinify : String → JsonR
  cssFormat : String → CssFormatR
  cssMinify : String → CssMinifyR
  sha256Hex : String → String
  uuid : String
  cuid : String

/-- Whitespace test used by the trim model (Rust `char::is_whitespace`
restricted to the characters relevant here; `Char.isWhitespace` covers
space, tab, carriage return and newline). -/
def isWsChar (c : Char) : Bool := c.isWhitespace

/-- Model of Rust `str::trim` on the character list: drop leading and
trailing whitespace. -/
def trimChars (l : List Char) : List Char :=
  ((l.dropWhile isWsChar).reverse.dropWhile isWsChar).reverse

/-- Model of Rust `str::trim` on strings. -/
def rustTrim (s : String) : String :=
  String.mk (trimChars s.data)

/-- The apostrophe character, written by code so that no apostrophe literal
appears in a string. -/
def quoteChar : Char := Char.ofNat 39

/-- The message `format!("Error: Unknown command \x7b\x7d", command)` of the
default arm of `handle_command` (the argument is quoted in the source). -/
def mkUnknownCommandError (command : String) : String :=
  "Error: Unknown command " ++ String.singleton quoteChar ++ command ++
    String.singleton quoteChar

/-- Model of `App::handle_command`: snapshot the buffer, clear both
messages, then dispatch on the trimmed command name; every arm for a
command that requires content starts with the empty-buffer guard. -/
def handle_command (ext : ExtCap) (command : String) (s : AppState) : AppState :=
  let s := push_undo s
  let s := { s with error_message := none, info_message := none }
  match rustTrim command with
  | "/base64-decode" =>
      if s.buffer = "" then
        { s with error_message := some "Error: Buffer is empty" }
      else
        match ext.stdB64Decode (rustTrim s.buffer) with
        | some decoded_bytes =>
            match ext.fromUtf8 decoded_bytes with
            | some decoded_string =>
                { s with buffer := decoded_string, scroll_pos := 0 }
            | none =>
                { s with
                  error_message :=
                    some "Error: Decoded data is not valid UTF-8" }
        | none =>
            { s with error_message := some "Error: Invalid base64 input" }
  | "/base64-encode" =>
      if s.buffer = "" then
        { s with error_message := some "Error: Buffer is empty" }
      else
        { s with buffer := ext.stdB64Encode s.buffer, scroll_pos := 0 }
  | "/copy" =>
      if s.buffer = "" then
        { s with error_message := some "Error: Buffer is empty" }
      else
        if ext.clipboardSet s.buffer then
          { s with info_message := some "Copied to clipboard" }
        else
          { s with error_message := some "Error: Failed to copy to clipboard" }
  | "/json-format" =>
      if s.buffer = "" then
        { s with error_message := some "Error: Buffer is empty" }
      else
        match ext.jsonFormat s.buffer with
        | .ok formatted => { s with buffer := formatted, scroll_pos := 0 }
        | .printErr =>
            { s with error_message := some "Error: Failed to format JSON" }
        | .parseErr e =>
            { s with error_message := some s!"Error: Invalid JSON - {e}" }
  | "/json-minify" =>
      if s.buffer = "" then
        { s with error_message := some "Error: Buffer is empty" }
      else
        match ext.jsonMinify s.buffer with
        | .ok minified => { s with buffer := minified, scroll_pos := 0 }
        | .printErr =>
            { s with error_message := some "Error: Failed to minify JSON" }
        | .parseErr e =>
            { s with error_message := some s!"Error: Invalid JSON - {e}" }
  | "/css-format" =>
      if s.buffer = "" then
        { s with error_message := some "Error: Buffer is empty" }
      else
        match ext.cssFormat s.buffer with
        | .ok result => { s with buffer := result, scroll_pos := 0 }
        | .printErr =>
            { s with error_message := some "Error: Failed to format CSS" }
        | .parseErr e =>
            { s with error_message := some s!"Error: Invalid CSS - {e}" }
  | "/css-minify" =>
      if s.buffer = "" then
        { s with error_message := some "Error: Buffer is empty" }
      else
        match ext.cssMinify s.buffer with
        | .ok result => { s with buffer := result, scroll_pos := 0 }
        | .minifyErr e =>
            { s with
              error_message := some s!"Error: Failed to minify CSS - {e}" }
        | .printErr =>
            { s with error_message := some "Error: Failed to minify CSS" }
        | .parseErr e =>
            { s with error_message := some s!"Error: Invalid CSS - {e}" }
  | "/cuid" => { s with buffer := ext.cuid, scroll_pos := 0 }
  | "/exit" => { s with exit := true }
  | "/sha-256" =>
      if s.buffer = "" then
        { s with error_message := some "Error: Buffer is empty" }
      else
        { s with buffer := ext.sha256Hex s.buffer, scroll_pos := 0 }
  | "/uuid" => { s with buffer := ext.uuid, scroll_pos := 0 }
  | _ => { s with error_message := some (mkUnknownCommandError command) }

/-- The registered commands that require a non-empty buffer: each of their
arms in `handle_command` starts with the empty-buffer guard. -/
def guarded_commands : List String :=
  ["/base64-decode", "/base64-encode", "/copy", "/json-format",
   "/json-minify", "/css-format", "/css-minify", "/sha-256"]

/-- Key codes handled by `App::handle_key_event` (`other` stands for any
code handled by the final wildcard arm). -/
inductive KeyCodeM where
  | char (c : Char)
  | tab
  | backspace
  | delete
  | up
  | down
  | left
  | right
  | home
  | endKey
  | enter
  | pageUp
  | pageDown
  | esc
  | other
deriving DecidableEq

/-- A key event: the code plus the three modifier flags the source
inspects (CONTROL, SUPER, SHIFT). -/
structure KeyEventM where
  code : KeyCodeM
  ctrl : Bool
  super : Bool
  shift : Bool
deriving DecidableEq

/-- Insertion of a text at a character index (ropey `Rope::insert` and
`Rope::insert_char`). -/
def insertChars (l : List Char) (i : Nat) (t : List Char) : List Char :=
  l.take i ++ t ++ l.drop i

/-- Removal of the character range `[i, i+1)` (ropey `Rope::remove`). -/
def removeCharAt (l : List Char) (i : Nat) : List Char :=
  l.take i ++ l.drop (i + 1)

/-- Model of `App::handle_key_event`.  The guarded `Char` arms are tried in
source order before the generic character-insertion arm; every arm mirrors
the corresponding source arm, including which arms call
`adjust_input_scroll` or reset `autocomplete_index` and which do not. -/
def handle_key_event (ext : ExtCap) (key : KeyEventM) (s : AppState) : AppState :=
  match key.code with
  | .char c =>
      if c = 'z' ∧ (key.ctrl ∨ key.super) then
        if key.shift then redo s else undo s
      else if (c = 'c' ∨ c = 'd') ∧ key.ctrl then
        { s with exit := true }
      else if c = 'a' ∧ key.ctrl then
        { s with cursor_pos := 0 }
      else if c = 'e' ∧ key.ctrl then
        { s with cursor_pos := s.input.length }
      else if c = 'v' ∧ (key.ctrl ∨ key.super) then
        match ext.clipboardGet with
        | some text =>
            { s with
              input := insertChars s.input s.cursor_pos text.data
              cursor_pos := s.cursor_pos + text.data.length }
        | none => s
      else
        adjust_input_scroll
          { s with
            input := insertChars s.input s.cursor_pos [c]
            cursor_pos := s.cursor_pos + 1
            autocomplete_index := none }
  | .tab =>
      let filtered := get_filtered_commands (String.mk s.input)
      if !filtered.isEmpty then
        match s.autocomplete_index with
        | some index =>
            { s with autocomplete_index := some ((index + 1) % filtered.length) }
        | none => { s with autocomplete_index := some 0 }
      else s
  | .backspace =>
      if s.cursor_pos > 0 then
        adjust_input_scroll
          { s with
            cursor_pos := s.cursor_pos - 1
            input := removeCharAt s.input (s.cursor_pos - 1)
            autocomplete_index := none }
      else s
  | .delete =>
      if s.cursor_pos < s.input.length then
        adjust_input_scroll
          { s with
            input := removeCharAt s.input s.cursor_pos
            autocomplete_index := none }
      else s
  | .up =>
      let current := get_cursor_line_col s.input s.cursor_pos
      if current.1 > 0 then
        adjust_input_scroll
          { s with
            cursor_pos := set_cursor_from_line_col s.input (current.1 - 1) current.2 }
      else s
  | .down =>
      let current := get_cursor_line_col s.input s.cursor_pos
      let total_lines :=
        if s.input.isEmpty then 1 else max (rustLinesCount s.input) 1
      if current.1 + 1 < total_lines then
        adjust_input_scroll
          { s with
            cursor_pos := set_cursor_from_line_col s.input (current.1 + 1) current.2 }
      else s
  | .left =>
      if s.cursor_pos > 0 then
        adjust_input_scroll { s with cursor_pos := s.cursor_pos - 1 }
      else s
  | .right =>
      if s.cursor_pos < s.input.length then
        adjust_input_scroll { s with cursor_pos := s.cursor_pos + 1 }
      else s
  | .home =>
      let current_line := (get_cursor_line_col s.input s.cursor_pos).1
      adjust_input_scroll
        { s with cursor_pos := set_cursor_from_line_col s.input current_line 0 }
  | .endKey =>
      let current_line := (get_cursor_line_col s.input s.cursor_pos).1
      let lines := rustLines s.input
      if current_line < lines.length then
        adjust_input_scroll
          { s with
            cursor_pos := set_cursor_from_line_col s.input current_line
              (lines.getD current_line []).length }
      else
        adjust_input_scroll { s with cursor_pos := s.input.length }
  | .enter =>
      if key.shift then
        adjust_input_scroll
          { s with
            input := insertChars s.input s.cursor_pos ['\n']
            cursor_pos := s.cursor_pos + 1 }
      else
        let filtered := get_filtered_commands (String.mk s.input)
        let accepted :=
          match s.autocomplete_index with
          | some index => filtered.get? index
          | none => none
        match accepted with
        | some command =>
            { s with
              input := command.data
              cursor_pos := command.data.length
              autocomplete_index := none
              input_scroll_line := 0 }
        | none =>
            if s.input.length > 0 then
              let input_text := String.mk s.input
              let input_trimmed := rustTrim input_text
              let is_valid_command :=
                get_available_commands.any (fun cmd => cmd == input_trimmed)
              let s1 :=
                if is_valid_command then handle_command ext input_trimmed s
                else { push_undo s with buffer := input_text }
              { s1 with
                input := []
                cursor_pos := 0
                autocomplete_index := none
                input_scroll_line := 0 }
            else s
  | .pageUp => { s with scroll_pos := s.scroll_pos - 10 }
  | .pageDown =>
      let buffer_lines := rustLinesCount s.buffer.data
      if buffer_lines > 0 then
        { s with scroll_pos := min (s.scroll_pos + 10) (buffer_lines - 1) }
      else s
  | .esc =>
      let filtered := get_filtered_commands (String.mk s.input)
      if !filtered.isEmpty || s.autocomplete_index.isSome then
        { s with
          autocomplete_index := none
          input := []
          cursor_pos := 0
          input_scroll_line := 0 }
      else s
  | .other => s

/-- Mouse events handled by `App::handle_mouse_event`. -/
inductive MouseEventM where
  | scrollUp
  | scrollDown
  | otherMouse
deriving DecidableEq

/-- Model of `App::handle_mouse_event`. -/
def handle_mouse_event (mouse : MouseEventM) (s : AppState) : AppState :=
  match mouse with
  | .scrollUp => { s with scroll_pos := s.scroll_pos - 3 }
  | .scrollDown =>
      let buffer_lines := rustLinesCount s.buffer.data
      if buffer_lines > 0 then
        { s with scroll_pos := min (s.scroll_pos + 3) (buffer_lines - 1) }
      else s
  | .otherMouse => s

/-- The discrete input events delivered to `App::handle_events`. -/
inductive EventM where
  | key (k : KeyEventM)
  | mouse (m : MouseEventM)
  | paste (text : String)
  | otherEvent
deriving DecidableEq

/-- Model of `App::handle_events`: dispatch one event to completion. -/
def handle_events (ext : ExtCap) (e : EventM) (s : AppState) : AppState :=
  match e with
  | .key k => handle_key_event ext k s
  | .mouse m => handle_mouse_event m s
  | .paste text =>
      adjust_input_scroll
        { s with
          input := insertChars s.input s.cursor_pos text.data
          cursor_pos := s.cursor_pos + text.data.length
          autocomplete_index := none }
  | .otherEvent => s

/-- A concrete instance of the external collaborators where every external
call fails or returns a constant, used in witnesses. -/
def ext0 : ExtCap :=
  { clipboardGet := none
    clipboardSet := fun _ => false
    stdB64Decode := fun _ => none
    fromUtf8 := fun _ => none
    stdB64Encode := fun _ => ""
    jsonFormat := fun _ => .printErr
    jsonMinify := fun _ => .printErr
    cssFormat := fun _ => .printErr
    cssMinify := fun _ => .printErr
    sha256Hex := fun _ => ""
    uuid := ""
    cuid := "" }

/-- A concrete instance whose clipboard read yields the text `"y"`. -/
def extClip : ExtCap := { ext0 with clipboardGet := some "y" }

/-- ASCII codes of the 64 characters of the standard base64 alphabet
`A-Z a-z 0-9 + /`, in table order. -/
def B64TABLE : List Nat :=
  [65, 66, 67, 68, 69, 70, 71, 72, 73, 74, 75, 76, 77, 78, 79, 80, 81, 82,
   83, 84, 85, 86, 87, 88, 89, 90,
   97, 98, 99, 100, 101, 102, 103, 104, 105, 106, 107, 108, 109, 110, 111,
   112, 113, 114, 115, 116, 117, 118, 119, 120, 121, 122,
   48, 49, 50, 51, 52, 53, 54, 55, 56, 57, 43, 47]

/-- Encoding of one 6-bit group to its alphabet byte. -/
def enc6 (n : Nat) : Nat := B64TABLE.getD n 0

/-- Decoding of one alphabet byte to its 6-bit group, the inverse of the
standard alphabet table; the padding byte and any other byte give `none`. -/
def dec6 (c : Nat) : Option Nat :=
  if 65 ≤ c ∧ c ≤ 90 then some (c - 65)
  else if 97 ≤ c ∧ c ≤ 122 then some (c - 97 + 26)
  else if 48 ≤ c ∧ c ≤ 57 then some (c - 48 + 52)
  else if c = 43 then some 62
  else if c = 47 then some 63
  else none

/-- Model of the `base64` crate `STANDARD.encode` on bytes: three input
bytes become four alphabet bytes; a final group of one or two bytes is
completed with the padding byte 61 (the `=` character). -/
def b64encodeBytes : List Nat → List Nat
  | [] => []
  | [b1] => [enc6 (b1 / 4), enc6 (b1 % 4 * 16), 61, 61]
  | [b1, b2] =>
      [enc6 (b1 / 4), enc6 (b1 % 4 * 16 + b2 / 16), enc6 (b2 % 16 * 4), 61]
  | b1 :: b2 :: b3 :: rest =>
      enc6 (b1 / 4) :: enc6 (b1 % 4 * 16 + b2 / 16) ::
        enc6 (b2 % 16 * 4 + b3 / 64) :: enc6 (b3 % 64) :: b64encodeBytes rest

/-- Model of the `base64` crate `STANDARD.decode` on bytes: the length must
be a multiple of four, the padding byte may appear only as canonical final
padding, and the unused low bits of a final partial group must be zero
(the engine rejects non-canonical trailing bits). -/
def b64decodeBytes : List Nat → Option (List Nat)
  | [] => some []
  | c1 :: c2 :: c3 :: c4 :: rest =>
      if c3 = 61 ∧ c4 = 61 ∧ rest = [] then
        match dec6 c1, dec6 c2 with
        | some n1, some n2 =>
            if n2 % 16 = 0 then some [n1 * 4 + n2 / 16] else none
        | _, _ => none
      else if c4 = 61 ∧ rest = [] then
        match dec6 c1, dec6 c2, dec6 c3 with
        | some n1, some n2, some n3 =>
            if n3 % 4 = 0 then
              some [n1 * 4 + n2 / 16, n2 % 16 * 16 + n3 / 4]
            else none
        | _, _, _ => none
      else
        match dec6 c1, dec6 c2, dec6 c3, dec6 c4, b64decodeBytes rest with
        | some n1, some n2, some n3, some n4, some tail =>
            some ((n1 * 4 + n2 / 16) :: (n2 % 16 * 16 + n3 / 4) ::
              (n3 % 4 * 64 + n4) :: tail)
        | _, _, _, _, _ => none
  | _ => none

/-- Whitespace bytes for the byte-level trim (space, tab, newline and
carriage return). -/
def isWsByte (b : Nat) : Bool := b == 32 || b == 9 || b == 10 || b == 13

/-- Byte-level model of Rust `str::trim` as used by `add_base64_padding`. -/
def trimBytes (l : List Nat) : List Nat :=
  ((l.dropWhile isWsByte).reverse.dropWhile isWsByte).reverse

/-- Model of `add_base64_padding` from `src/cmds/base64.rs`: trim the
input, then append the padding byte until the length is a multiple of
four. -/
def add_base64_padding (input : List Nat) : List Nat :=
  let trimmed := trimBytes input
  let padding_needed := (4 - trimmed.length % 4) % 4
  if padding_needed = 0 then trimmed
  else trimmed ++ List.replicate padding_needed 61

/-- A UTF-8 continuation byte. -/
def isUtf8Cont (b : Nat) : Bool := decide (128 ≤ b ∧ b < 192)

/-- RFC 3629 UTF-8 validity of a byte sequence, modelling the success of
`String::from_utf8` (overlong encodings, surrogates and values beyond
U+10FFFF are rejected). -/
def utf8Valid : List Nat → Bool
  | [] => true
  | b :: rest =>
      if b < 128 then utf8Valid rest
      else if b < 194 then false
      else if b < 224 then
        match rest with
        | c1 :: r => isUtf8Cont c1 && utf8Valid r
        | [] => false
      else if b < 240 then
        match rest with
        | c1 :: c2 :: r =>
            isUtf8Cont c1 && isUtf8Cont c2 &&
              !(decide (b = 224) && decide (c1 < 160)) &&
              !(decide (b = 237) && decide (160 ≤ c1)) &&
              utf8Valid r
        | _ => false
      else if b < 245 then
        match rest with
        | c1 :: c2 :: c3 :: r =>
            isUtf8Cont c1 && isUtf8Cont c2 && isUtf8Cont c3 &&
              !(decide (b = 240) && decide (c1 < 144)) &&
              !(decide (b = 244) && decide (144 ≤ c1)) &&
              utf8Valid r
        | _ => false
      else false

/-- The error type `DecodeError` from `src/cmds/base64.rs`. -/
inductive DecodeError where
  | base64DecodeError
  | fromUtf8Error
deriving DecidableEq

/-- Model of `base64_decode` from `src/cmds/base64.rs`: pad the trimmed
input, decode with the standard engine, then validate the decoded bytes as
UTF-8 (`String::from_utf8`). -/
def base64_decode (buffer : List Nat) : Except DecodeError (List Nat) :=
  let padded := add_base64_padding buffer
  match b64decodeBytes padded with
  | none => Except.error DecodeError.base64DecodeError
  | some decoded_bytes =>
      if utf8Valid decoded_bytes then Except.ok decoded_bytes
      else Except.error DecodeError.fromUtf8Error

/-- Model of `base64_encode` from `src/cmds/base64.rs`. -/
def base64_encode (buffer : List Nat) : List Nat :=
  b64encodeBytes buffer

/-- Removal of the trailing padding bytes of an encoding. -/
def dropTrailingEq (l : List Nat) : List Nat :=
  (l.reverse.dropWhile (fun b => b == 61)).reverse

/-- The input-view window invariant claimed by the spec: the cursor line
lies inside the five-line visible window starting at the anchor. -/
def input_window_ok (s : AppState) : Prop :=
  s.input_scroll_line ≤ (get_cursor_line_col s.input s.cursor_pos).1 ∧
    (get_cursor_line_col s.input s.cursor_pos).1 <
      s.input_scroll_line + max_visible_lines

/-- The output-buffer anchor invariant claimed by the spec:
`0 ≤ scroll_pos ≤ max 0 (totalLines - 1)`. -/
def output_scroll_ok (s : AppState) : Prop :=
  s.scroll_pos ≤ max 0 (rustLinesCount s.buffer.data - 1)

/-- Claim C10: `undo` and `redo` mutate only the buffer, the history
stacks, the output scroll position, and the info message; the input rope,
the cursor offset, the input scroll anchor, the autocomplete index, the
error message, and the exit flag are unchanged by both. -/
theorem undo_redo_frame (s : AppState) :
    (undo s).input = s.input ∧ (undo s).cursor_pos = s.cursor_pos ∧
    (undo s).input_scroll_line = s.input_scroll_line ∧
    (undo s).autocomplete_index = s.autocomplete_index ∧
    (undo s).error_message = s.error_message ∧ (undo s).exit = s.exit ∧
    (redo s).input = s.input ∧ (redo s).cursor_pos = s.cursor_pos ∧
    (redo s).input_scroll_line = s.input_scroll_line ∧
    (redo s).autocomplete_index = s.autocomplete_index ∧
    (redo s).error_message = s.error_message ∧ (redo s).exit = s.exit := by
  unfold undo redo
  cases s.undo_stack <;> cases s.redo_stack <;> simp

/-- Claim C6: the input-scroll update moves the anchor to
`cursorLine - maxVisibleLines + 1` when the cursor is at or below the
bottom of the window, to `cursorLine` when it is above the window, and
leaves it unchanged otherwise; concretely, with seven input lines, the
five-line window and the cursor on line 6, the anchor becomes 2. -/
theorem adjust_input_scroll_spec (s : AppState) :
    (((get_cursor_line_col s.input s.cursor_pos).1 ≥
        s.input_scroll_line + max_visible_lines →
      (adjust_input_scroll s).input_scroll_line =
        (get_cursor_line_col s.input s.cursor_pos).1 - max_visible_lines + 1) ∧
     ((get_cursor_line_col s.input s.cursor_pos).1 < s.input_scroll_line →
      (adjust_input_scroll s).input_scroll_line =
        (get_cursor_line_col s.input s.cursor_pos).1) ∧
     (s.input_scroll_line ≤ (get_cursor_line_col s.input s.cursor_pos).1 ∧
        (get_cursor_line_col s.input s.cursor_pos).1 <
          s.input_scroll_line + max_visible_lines →
      (adjust_input_scroll s).input_scroll_line = s.input_scroll_line)) ∧
    (adjust_input_scroll
        { appDefault with
            input := "a0\na1\na2\na3\na4\na5\na6".data
            cursor_pos := 20 }).input_scroll_line = 2 := by
  constructor
  · unfold adjust_input_scroll max_visible_lines
    refine ⟨fun h => ?_, fun h => ?_, fun h => ?_⟩ <;>
      simp only [ge_iff_le] at * <;> split <;> simp_all <;> split <;> simp_all <;> omega
  · decide

/-- Witness for C6 at a concrete state: seven input lines, cursor on
line 6, anchor 0; the first branch applies and yields anchor 2. -/
theorem adjust_input_scroll_spec_witness :
    (adjust_input_scroll
        { appDefault with
            input := "a0\na1\na2\na3\na4\na5\na6".data
            cursor_pos := 20 }).input_scroll_line = 2 :=
  (adjust_input_scroll_spec
    { appDefault with
        input := "a0\na1\na2\na3\na4\na5\na6".data
        cursor_pos := 20 }).2

/-- Claim C8: autocomplete filtering is empty when the input does not start
with the command-prefix character, and otherwise consists of exactly the
registered command names that have the input as a prefix, in registry
declaration order (the result is a sublist of the registry). -/
theorem get_filtered_commands_spec (input_text : String) :
    (strStartsWith input_text "/" = false → get_filtered_commands input_text = []) ∧
    (strStartsWith input_text "/" = true →
      (∀ c, c ∈ get_filtered_commands input_text ↔
        c ∈ get_available_commands ∧ strStartsWith c input_text = true) ∧
      (get_filtered_commands input_text).Sublist get_available_commands) := by
  constructor
  · intro h
    simp [get_filtered_commands, h]
  · intro h
    constructor
    · intro c
      simp [get_filtered_commands, h, List.mem_filter]
    · simp only [get_filtered_commands, h]
      simp [List.filter_sublist]

/-- Witness for C8 at the concrete input `"/js"`: both candidates are the
two `/json-*` commands, in declaration order. -/
theorem get_filtered_commands_spec_witness :
    get_filtered_commands "/js" = ["/json-format", "/json-minify"] ∧
    ("/json-format" ∈ get_filtered_commands "/js" ↔
      "/json-format" ∈ get_available_commands ∧
        strStartsWith "/json-format" "/js" = true) := by
  refine ⟨by decide, ?_⟩
  exact ((get_filtered_commands_spec "/js").2 (by decide)).1 "/json-format"

/-- One scan step strictly increases the (line, column) pair
lexicographically. -/
theorem lineColStep_lt (s : Nat × Nat) (ch : Char) :
    s.1 < (lineColStep s ch).1 ∨
      (s.1 = (lineColStep s ch).1 ∧ s.2 < (lineColStep s ch).2) := by
  rcases s with ⟨line, col⟩
  simp only [lineColStep]
  split <;> simp

/-- Folding the scan step never decreases the (line, column) pair
lexicographically. -/
theorem foldl_lineColStep_le :
    ∀ (l : List Char) (s : Nat × Nat),
      s.1 < (l.foldl lineColStep s).1 ∨
        (s.1 = (l.foldl lineColStep s).1 ∧ s.2 ≤ (l.foldl lineColStep s).2) := by
  intro l
  induction l with
  | nil => intro s; simp
  | cons ch rest ih =>
    intro s
    have h1 := lineColStep_lt s ch
    have h2 := ih (lineColStep s ch)
    simp only [List.foldl_cons]
    omega

/-- Folding the scan step over a nonempty list strictly increases the
(line, column) pair lexicographically. -/
theorem foldl_lineColStep_lt (l : List Char) (s : Nat × Nat) (ch : Char) :
    s.1 < ((ch :: l).foldl lineColStep s).1 ∨
      (s.1 = ((ch :: l).foldl lineColStep s).1 ∧
        s.2 < ((ch :: l).foldl lineColStep s).2) := by
  have h1 := lineColStep_lt s ch
  have h2 := foldl_lineColStep_le l (lineColStep s ch)
  simp only [List.foldl_cons] at *
  omega

/-- The scanning loop of `set_cursor_from_line_col`, aimed at the
(line, column) pair reached after exactly `k` characters from the running
state, walks exactly those `k` characters. -/
theorem set_cursor_loop_foldl :
    ∀ (text : List Char) (k line col pos : Nat), k ≤ text.length →
      set_cursor_loop ((text.take k).foldl lineColStep (line, col)).1
          ((text.take k).foldl lineColStep (line, col)).2 text line col pos =
        pos + k := by
  intro text
  induction text with
  | nil =>
    intro k line col pos hk
    have : k = 0 := Nat.le_zero.mp hk
    subst this
    simp [set_cursor_loop]
  | cons ch rest ih =>
    intro k line col pos hk
    cases k with
    | zero => simp [set_cursor_loop]
    | succ j =>
      have hj : j ≤ rest.length := by simpa using hk
      simp only [List.take_succ_cons, List.foldl_cons]
      have hlt := foldl_lineColStep_lt (rest.take j) (line, col) ch
      simp only [List.foldl_cons] at hlt
      rw [set_cursor_loop]
      rw [if_neg (by omega), if_neg (by omega)]
      by_cases hch : ch = '\n'
      · subst hch
        have hstep : lineColStep (line, col) '\n' = (line + 1, 0) := by
          simp [lineColStep]
        rw [hstep] at hlt ⊢
        have hmono := foldl_lineColStep_le (rest.take j) (line + 1, 0)
        rw [if_pos rfl, if_neg (by omega)]
        rw [ih j (line + 1) 0 (pos + 1) hj]
        omega
      · have hstep : lineColStep (line, col) ch = (line, col + 1) := by
          simp [lineColStep, hch]
        rw [hstep] at hlt ⊢
        rw [if_neg hch]
        rw [ih j line (col + 1) (pos + 1) hj]
        omega

/-- Claim C3: for any text whose characters are newlines or non-control
characters and any valid character offset `k`, converting `k` to a
(line, column) pair with `get_cursor_line_col` and back with
`set_cursor_from_line_col` yields `k` again. -/
theorem cursor_line_col_round_trip (text : List Char) (k : Nat)
    (hk : k ≤ text.length)
    (hc : ∀ c ∈ text, c = '\n' ∨ charIsControl c = false) :
    set_cursor_from_line_col text (get_cursor_line_col text k).1
      (get_cursor_line_col text k).2 = k := by
  unfold set_cursor_from_line_col get_cursor_line_col
  simpa using set_cursor_loop_foldl text k 0 0 0 hk

/-- Witness for C3 at the concrete text `"ab\ncd"` and offset 4. -/
theorem cursor_line_col_round_trip_witness :
    set_cursor_from_line_col "ab\ncd".data
        (get_cursor_line_col "ab\ncd".data 4).1
        (get_cursor_line_col "ab\ncd".data 4).2 = 4 :=
  cursor_line_col_round_trip "ab\ncd".data 4 (by decide) (by decide)

/-- The snapshot trace has one entry per dispatched command. -/
theorem hist_length : ∀ (bs : List String) (b0 : String),
    (hist b0 bs).length = bs.length
  | [], _ => rfl
  | b :: bs, b0 => by
      simp [hist, hist_length bs b]

/-- The final buffer together with the snapshot trace is the reversal of the
initial buffer followed by the dispatched outputs. -/
theorem hist_rev : ∀ (bs : List String) (b0 : String),
    bs.getLastD b0 :: hist b0 bs = (b0 :: bs).reverse
  | [], b0 => rfl
  | b :: bs, b0 => by
      have ih := hist_rev bs b
      rw [List.getLastD_cons]
      show bs.getLastD b :: (hist b bs ++ [b0]) = (b0 :: b :: bs).reverse
      rw [← List.cons_append, ih, ← List.reverse_cons]

/-- The snapshot trace is the reversal of all but the last of the buffer
values `b0, B1, .., BN`. -/
theorem hist_eq_reverse_dropLast : ∀ (bs : List String) (b0 : String),
    hist b0 bs = ((b0 :: bs).dropLast).reverse
  | [], b0 => rfl
  | b :: bs, b0 => by
      have ih := hist_eq_reverse_dropLast bs b
      simp only [hist, ih, List.dropLast_cons₂, List.reverse_cons]

/-- The snapshot trace of a nonempty dispatch ends with the initial buffer. -/
theorem hist_getLastD (b : String) (bs : List String) (b0 d : String) :
    (hist b0 (b :: bs)).getLastD d = b0 := by
  simp [hist]

/-- On stacks respecting the bound, `push_undo` produces the truncation to
`MAX_STACK_SIZE` of the pushed stack. -/
theorem push_undo_stack (s : AppState) (h : s.undo_stack.length ≤ 500) :
    (push_undo s).undo_stack = (s.buffer :: s.undo_stack).take 500 := by
  simp only [push_undo, MAX_STACK_SIZE]
  split
  · rename_i hlen
    rw [List.dropLast_eq_take]
    congr 1
    simp at hlen ⊢
    omega
  · rename_i hlen
    rw [List.take_of_length_le]
    simp at hlen ⊢
    omega

/-- Truncating after appending an already-truncated tail equals truncating
after appending the full tail. -/
theorem take_append_take {α : Type} (a l : List α) (n : Nat) :
    (a ++ l.take n).take n = (a ++ l).take n := by
  rw [List.take_append_eq_append_take, List.take_append_eq_append_take,
    List.take_take, Nat.min_eq_left (Nat.sub_le n a.length)]

/-- Shape of the state after dispatching a list of succeeding commands: the
undo stack is the truncated snapshot trace over the initial stack, the
buffer is the last output, and the redo stack is cleared by any dispatch. -/
theorem dispatchList_shape :
    ∀ (bs : List String) (s : AppState), s.undo_stack.length ≤ 500 →
      (dispatchList s bs).undo_stack =
          (hist s.buffer bs ++ s.undo_stack).take 500 ∧
        (dispatchList s bs).buffer = bs.getLastD s.buffer ∧
        (dispatchList s bs).redo_stack =
          (if bs = [] then s.redo_stack else []) := by
  intro bs
  induction bs with
  | nil =>
    intro s h
    refine ⟨?_, rfl, by simp [dispatchList]⟩
    simp [dispatchList, hist, List.take_of_length_le h]
  | cons b bs ih =>
    intro s h
    have hstep : dispatchList s (b :: bs) = dispatchList (dispatch_success s b) bs := rfl
    have hs1undo : (dispatch_success s b).undo_stack =
        (s.buffer :: s.undo_stack).take 500 := by
      simp only [dispatch_success]
      exact push_undo_stack s h
    have hs1buf : (dispatch_success s b).buffer = b := rfl
    have hs1redo : (dispatch_success s b).redo_stack = [] := rfl
    have hs1len : (dispatch_success s b).undo_stack.length ≤ 500 := by
      rw [hs1undo]
      simp [List.length_take]
    obtain ⟨h1, h2, h3⟩ := ih (dispatch_success s b) hs1len
    refine ⟨?_, ?_, ?_⟩
    · rw [hstep, h1, hs1buf, hs1undo, take_append_take]
      have : hist b bs ++ s.buffer :: s.undo_stack =
          hist s.buffer (b :: bs) ++ s.undo_stack := by
        simp [hist]
      rw [this]
    · rw [hstep, h2, hs1buf, List.getLastD_cons]
    · rw [hstep, h3, hs1redo]
      simp

/-- Calling `undo` once per entry of the top segment `h` of the undo stack
restores the oldest buffer of that segment, leaves the remaining stack `t`,
and moves the traversed buffers (oldest first) onto the redo stack. -/
theorem undo_iterate :
    ∀ (h t : List String) (s : AppState), s.undo_stack = h ++ t →
      (undo^[h.length] s).buffer = h.getLastD s.buffer ∧
        (undo^[h.length] s).undo_stack = t ∧
        (undo^[h.length] s).redo_stack =
          ((s.buffer :: h).dropLast).reverse ++ s.redo_stack := by
  intro h
  induction h with
  | nil => intro t s hs; simpa using hs
  | cons x h ih =>
    intro t s hs
    have hu : undo s =
        { s with
          redo_stack := s.buffer :: s.redo_stack
          undo_stack := h ++ t
          buffer := x
          scroll_pos := 0
          info_message := some "Undo" } := by
      unfold undo
      rw [hs]
      rfl
    have hlen : (x :: h).length = h.length + 1 := rfl
    rw [hlen, Function.iterate_succ_apply, hu]
    have hstack :
        ({ s with
            redo_stack := s.buffer :: s.redo_stack
            undo_stack := h ++ t
            buffer := x
            scroll_pos := 0
            info_message := some "Undo" } : AppState).undo_stack = h ++ t := rfl
    obtain ⟨h1, h2, h3⟩ := ih t _ hstack
    refine ⟨?_, h2, ?_⟩
    · rw [h1, List.getLastD_cons]
    · rw [h3]
      simp [List.reverse_cons]

/-- Symmetric statement for `redo` on the redo stack. -/
theorem redo_iterate :
    ∀ (h t : List String) (s : AppState), s.redo_stack = h ++ t →
      (redo^[h.length] s).buffer = h.getLastD s.buffer ∧
        (redo^[h.length] s).redo_stack = t ∧
        (redo^[h.length] s).undo_stack =
          ((s.buffer :: h).dropLast).reverse ++ s.undo_stack := by
  intro h
  induction h with
  | nil => intro t s hs; simpa using hs
  | cons x h ih =>
    intro t s hs
    have hu : redo s =
        { s with
          undo_stack := s.buffer :: s.undo_stack
          redo_stack := h ++ t
          buffer := x
          scroll_pos := 0
          info_message := some "Redo" } := by
      unfold redo
      rw [hs]
      rfl
    have hlen : (x :: h).length = h.length + 1 := rfl
    rw [hlen, Function.iterate_succ_apply, hu]
    have hstack :
        ({ s with
            undo_stack := s.buffer :: s.undo_stack
            redo_stack := h ++ t
            buffer := x
            scroll_pos := 0
            info_message := some "Redo" } : AppState).redo_stack = h ++ t := rfl
    obtain ⟨h1, h2, h3⟩ := ih t _ hstack
    refine ⟨?_, h2, ?_⟩
    · rw [h1, List.getLastD_cons]
    · rw [h3]
      simp [List.reverse_cons]

/-- Reversing, removing the last element and reversing again drops the
head of a cons. -/
theorem reverse_dropLast_reverse_cons (b0 : String) (bs : List String) :
    (((b0 :: bs).reverse).dropLast).reverse = bs := by
  rw [List.reverse_cons, List.dropLast_concat, List.reverse_reverse]

/-- Claim C1: starting from any state whose undo stack respects the
documented bound, dispatching `N ≤ 500` commands that each succeed and
replace the buffer, then calling `undo` `N` times restores the initial
buffer, and calling `redo` `N` times after that restores the final buffer. -/
theorem undo_redo_inverse_law (s0 : AppState) (bs : List String)
    (hb : bs.length ≤ 500) (hs : s0.undo_stack.length ≤ 500) :
    (undo^[bs.length] (dispatchList s0 bs)).buffer = s0.buffer ∧
    (redo^[bs.length] (undo^[bs.length] (dispatchList s0 bs))).buffer =
      (dispatchList s0 bs).buffer := by
  rcases bs with _ | ⟨b, bs'⟩
  · simp [dispatchList]
  · obtain ⟨hu, hbuf, hredo⟩ := dispatchList_shape (b :: bs') s0 hs
    rw [if_neg (by simp)] at hredo
    have hlenh : (hist s0.buffer (b :: bs')).length = (b :: bs').length :=
      hist_length _ _
    have hsplit : (hist s0.buffer (b :: bs') ++ s0.undo_stack).take 500 =
        hist s0.buffer (b :: bs') ++
          s0.undo_stack.take (500 - (hist s0.buffer (b :: bs')).length) := by
      rw [List.take_append_eq_append_take,
        List.take_of_length_le (by rw [hlenh]; exact hb)]
    rw [hsplit] at hu
    obtain ⟨h1, h2, h3⟩ := undo_iterate (hist s0.buffer (b :: bs'))
      (s0.undo_stack.take (500 - (hist s0.buffer (b :: bs')).length))
      (dispatchList s0 (b :: bs')) hu
    rw [hlenh] at h1 h2 h3
    constructor
    · rw [h1, hist_getLastD]
    · have hUredo :
          (undo^[(b :: bs').length] (dispatchList s0 (b :: bs'))).redo_stack =
            b :: bs' := by
        rw [h3, hredo, List.append_nil, hbuf, hist_rev,
          reverse_dropLast_reverse_cons]
      obtain ⟨r1, r2, r3⟩ := redo_iterate (b :: bs') []
        (undo^[(b :: bs').length] (dispatchList s0 (b :: bs')))
        (by rw [hUredo, List.append_nil])
      rw [r1, h1, hist_getLastD, hbuf]

/-- Witness for C1: from the default state, dispatching two commands with
outputs `"a"` and `"b"`, undoing twice restores the empty buffer and
redoing twice restores `"b"`. -/
theorem undo_redo_inverse_law_witness :
    (undo^[2] (dispatchList appDefault ["a", "b"])).buffer = appDefault.buffer ∧
    (redo^[2] (undo^[2] (dispatchList appDefault ["a", "b"]))).buffer =
      (dispatchList appDefault ["a", "b"]).buffer :=
  undo_redo_inverse_law appDefault ["a", "b"] (by decide) (by decide)

/-- Claim C5: the undo stack never exceeds 500 snapshots.  `push_undo`
keeps the undo stack within the bound and clears the redo stack; on states
respecting the joint bound, `undo` and `redo` keep both stacks within it;
and pushing 600 snapshots from an empty undo stack leaves exactly the 500
newest snapshots (the initial buffer and the first 99 outputs, the oldest
100 snapshots, are evicted). -/
theorem bounded_history (s s0 : AppState) (bs : List String)
    (hinv : s.undo_stack.length + s.redo_stack.length ≤ 500)
    (h0 : s0.undo_stack = []) (hlen : bs.length = 600) :
    ((push_undo s).undo_stack.length ≤ 500 ∧
     (push_undo s).redo_stack = [] ∧
     (undo s).undo_stack.length ≤ 500 ∧ (undo s).redo_stack.length ≤ 500 ∧
     (redo s).undo_stack.length ≤ 500 ∧ (redo s).redo_stack.length ≤ 500) ∧
    ((dispatchList s0 bs).undo_stack =
        (((s0.buffer :: bs).dropLast).drop 100).reverse ∧
     (dispatchList s0 bs).undo_stack.length = 500) := by
  have hundo : (undo s).undo_stack.length ≤ 500 ∧
      (undo s).redo_stack.length ≤ 500 := by
    cases hcu : s.undo_stack with
    | nil =>
      have heq : undo s = s := by
        unfold undo
        rw [hcu]
      rw [heq, hcu] at *
      rw [hcu]
      simp at hinv ⊢
      omega
    | cons a rest =>
      have heq : undo s =
          { s with
            redo_stack := s.buffer :: s.redo_stack
            undo_stack := rest
            buffer := a
            scroll_pos := 0
            info_message := some "Undo" } := by
        unfold undo
        rw [hcu]
      rw [heq]
      rw [hcu] at hinv
      simp at hinv ⊢
      omega
  have hredo : (redo s).undo_stack.length ≤ 500 ∧
      (redo s).redo_stack.length ≤ 500 := by
    cases hcr : s.redo_stack with
    | nil =>
      have heq : redo s = s := by
        unfold redo
        rw [hcr]
      rw [heq, hcr] at *
      rw [hcr]
      simp at hinv ⊢
      omega
    | cons a rest =>
      have heq : redo s =
          { s with
            undo_stack := s.buffer :: s.undo_stack
            redo_stack := rest
            buffer := a
            scroll_pos := 0
            info_message := some "Redo" } := by
        unfold redo
        rw [hcr]
      rw [heq]
      rw [hcr] at hinv
      simp at hinv ⊢
      omega
  constructor
  · refine ⟨?_, rfl, hundo.1, hundo.2, hredo.1, hredo.2⟩
    simp only [push_undo, MAX_STACK_SIZE]
    split <;> rename_i hx <;> simp at hx ⊢ <;> omega
  · have hnil : s0.undo_stack.length ≤ 500 := by rw [h0]; simp
    obtain ⟨hu, -, -⟩ := dispatchList_shape bs s0 hnil
    rw [hu, h0, List.append_nil, hist_eq_reverse_dropLast]
    have hL : ((s0.buffer :: bs).dropLast).length = 600 := by
      simp [hlen]
    constructor
    · rw [List.take_reverse, hL]
    · simp [List.length_take, hL]

/-- On a non-empty buffer, `handle_command` for `/base64-encode` is exactly
the success dispatch with the encoder output: this grounds
`dispatch_success` (used by the undo/redo law) in `handle_command`. -/
theorem handle_command_success_path (ext : ExtCap) (s : AppState)
    (h : s.buffer ≠ "") :
    handle_command ext "/base64-encode" s =
      dispatch_success s (ext.stdB64Encode s.buffer) := by
  simp [handle_command, dispatch_success, h,
    (show (push_undo s).buffer = s.buffer from rfl),
    (by decide : rustTrim "/base64-encode" = "/base64-encode")]

/-- Claim C2: dispatching any command that requires a non-empty buffer
while the buffer is empty sets the empty-buffer error message, leaves the
buffer unchanged, invokes no transform (the result is independent of the
external capabilities), and still records one undo entry equal to the
pre-dispatch empty buffer, with the redo stack cleared, because the undo
snapshot of step 1 precedes the guard. -/
theorem empty_buffer_guard (cmd : String) (hcmd : cmd ∈ guarded_commands)
    (s : AppState) (hbuf : s.buffer = "")
    (hlen : s.undo_stack.length < 500) (ext ext2 : ExtCap) :
    handle_command ext cmd s = handle_command ext2 cmd s ∧
    (handle_command ext cmd s).error_message = some "Error: Buffer is empty" ∧
    (handle_command ext cmd s).buffer = s.buffer ∧
    (handle_command ext cmd s).undo_stack = s.buffer :: s.undo_stack ∧
    (handle_command ext cmd s).redo_stack = [] := by
  have hcond : ¬ (s.buffer :: s.undo_stack).length > MAX_STACK_SIZE := by
    simp [MAX_STACK_SIZE]
    omega
  fin_cases hcmd <;>
    refine ⟨?_, ?_, ?_, ?_, ?_⟩ <;>
      simp [handle_command, push_undo, hbuf, hcond,
        (by decide : rustTrim "/base64-decode" = "/base64-decode"),
        (by decide : rustTrim "/base64-encode" = "/base64-encode"),
        (by decide : rustTrim "/copy" = "/copy"),
        (by decide : rustTrim "/json-format" = "/json-format"),
        (by decide : rustTrim "/json-minify" = "/json-minify"),
        (by decide : rustTrim "/css-format" = "/css-format"),
        (by decide : rustTrim "/css-minify" = "/css-minify"),
        (by decide : rustTrim "/sha-256" = "/sha-256")] <;>
      (intro hx; simp only [MAX_STACK_SIZE] at hx; omega)

/-- Witness for C2 at the concrete command `/base64-decode` on the default
(empty-buffer) state, with two different capability records. -/
theorem empty_buffer_guard_witness :
    handle_command ext0 "/base64-decode" appDefault =
        handle_command extClip "/base64-decode" appDefault ∧
      (handle_command ext0 "/base64-decode" appDefault).error_message =
        some "Error: Buffer is empty" ∧
      (handle_command ext0 "/base64-decode" appDefault).buffer =
        appDefault.buffer ∧
      (handle_command ext0 "/base64-decode" appDefault).undo_stack =
        appDefault.buffer :: appDefault.undo_stack ∧
      (handle_command ext0 "/base64-decode" appDefault).redo_stack = [] :=
  empty_buffer_guard "/base64-decode" (by decide) appDefault rfl (by decide)
    ext0 extClip

/-- The input-scroll adjustment does not change the input rope. -/
theorem adjust_input (s : AppState) :
    (adjust_input_scroll s).input = s.input := by
  simp only [adjust_input_scroll]
  split <;> split <;> rfl

/-- The input-scroll adjustment does not change the cursor offset. -/
theorem adjust_cursor (s : AppState) :
    (adjust_input_scroll s).cursor_pos = s.cursor_pos := by
  simp only [adjust_input_scroll]
  split <;> split <;> rfl

/-- The input-scroll adjustment does not change the autocomplete index. -/
theorem adjust_autocomplete (s : AppState) :
    (adjust_input_scroll s).autocomplete_index = s.autocomplete_index := by
  simp only [adjust_input_scroll]
  split <;> split <;> rfl

/-- After `adjust_input_scroll`, the cursor line lies inside the visible
five-line window of the input view, for every state. -/
theorem adjust_input_scroll_window (s : AppState) :
    input_window_ok (adjust_input_scroll s) := by
  unfold input_window_ok
  rw [adjust_input, adjust_cursor]
  simp only [adjust_input_scroll, max_visible_lines]
  split <;> split <;> simp_all <;> omega

/-- Claim C7 amended: character insertion, backspace (when the cursor is
not at offset 0), delete (when the cursor is not at the end of the input)
and terminal paste events reset the autocomplete index to none; the Ctrl+V
clipboard-paste arm leaves the autocomplete index untouched. -/
theorem input_mutation_resets_autocomplete (ext : ExtCap) (s : AppState)
    (c : Char) (txt : String) :
    (handle_key_event ext
        { code := KeyCodeM.char c, ctrl := false, super := false,
          shift := false } s).autocomplete_index = none ∧
    (s.cursor_pos > 0 →
      (handle_key_event ext
          { code := KeyCodeM.backspace, ctrl := false, super := false,
            shift := false } s).autocomplete_index = none) ∧
    (s.cursor_pos < s.input.length →
      (handle_key_event ext
          { code := KeyCodeM.delete, ctrl := false, super := false,
            shift := false } s).autocomplete_index = none) ∧
    (handle_events ext (EventM.paste txt) s).autocomplete_index = none ∧
    (handle_key_event ext
        { code := KeyCodeM.char 'v', ctrl := true, super := false,
          shift := false } s).autocomplete_index = s.autocomplete_index := by
  refine ⟨?_, ?_, ?_, ?_, ?_⟩
  · simp [handle_key_event, adjust_autocomplete]
  · intro h
    simp [handle_key_event, adjust_autocomplete, h]
  · intro h
    simp [handle_key_event, adjust_autocomplete, h]
  · simp [handle_events, adjust_autocomplete]
  · simp only [handle_key_event]
    rw [if_neg (by decide), if_neg (by decide), if_neg (by decide),
      if_neg (by decide), if_pos (by decide)]
    cases hg : ext.clipboardGet <;> simp [hg]

/-- Witness for the amended C7: backspace at cursor offset 1 resets a
previously selected autocomplete index. -/
theorem input_mutation_resets_autocomplete_witness :
    (handle_key_event ext0
        { code := KeyCodeM.backspace, ctrl := false, super := false,
          shift := false }
        { appDefault with
            input := ['a']
            cursor_pos := 1
            autocomplete_index := some 3 }).autocomplete_index = none :=
  (input_mutation_resets_autocomplete ext0
      { appDefault with
          input := ['a']
          cursor_pos := 1
          autocomplete_index := some 3 } 'q' "t").2.1 (by decide)

/-- Counterexample to claim C7 as stated: from a state with a selected
autocomplete index and a clipboard holding text, the Ctrl+V clipboard
paste mutates the input rope yet leaves the autocomplete index selected. -/
theorem clipboard_paste_no_reset_cex :
    (handle_key_event extClip
        { code := KeyCodeM.char 'v', ctrl := true, super := false,
          shift := false }
        { appDefault with
            input := ['/']
            cursor_pos := 1
            autocomplete_index := some 0 }).autocomplete_index = some 0 ∧
      (handle_key_event extClip
          { code := KeyCodeM.char 'v', ctrl := true, super := false,
            shift := false }
          { appDefault with
              input := ['/']
              cursor_pos := 1
              autocomplete_index := some 0 }).input ≠ ['/'] := by
  decide

/-- Claim C4 amended: events ending in the input-scroll adjustment (shown
for character insertion and terminal paste, which adjust unconditionally)
leave the cursor line inside the visible input window; the output-buffer
scroll events (PageUp, PageDown, mouse scroll) and undo/redo keep the
output anchor within `[0, max 0 (totalLines - 1)]` whenever it was within
before; but Ctrl+A, Ctrl+E and Ctrl+V leave the input anchor unadjusted,
and a plain-edit Enter confirm can leave the output anchor beyond the
bound (see the counterexample). -/
theorem scroll_invariants_amended (ext : ExtCap) (s : AppState) (c : Char)
    (txt : String) (hscroll : output_scroll_ok s) :
    input_window_ok (handle_key_event ext
      { code := KeyCodeM.char c, ctrl := false, super := false,
        shift := false } s) ∧
    input_window_ok (handle_events ext (EventM.paste txt) s) ∧
    output_scroll_ok (handle_key_event ext
      { code := KeyCodeM.pageUp, ctrl := false, super := false,
        shift := false } s) ∧
    output_scroll_ok (handle_key_event ext
      { code := KeyCodeM.pageDown, ctrl := false, super := false,
        shift := false } s) ∧
    output_scroll_ok (handle_events ext (EventM.mouse MouseEventM.scrollUp) s) ∧
    output_scroll_ok (handle_events ext (EventM.mouse MouseEventM.scrollDown) s) ∧
    output_scroll_ok (handle_key_event ext
      { code := KeyCodeM.char 'z', ctrl := true, super := false,
        shift := false } s) ∧
    output_scroll_ok (handle_key_event ext
      { code := KeyCodeM.char 'z', ctrl := true, super := false,
        shift := true } s) ∧
    (handle_key_event ext
      { code := KeyCodeM.char 'a', ctrl := true, super := false,
        shift := false } s).input_scroll_line = s.input_scroll_line ∧
    (handle_key_event ext
      { code := KeyCodeM.char 'e', ctrl := true, super := false,
        shift := false } s).input_scroll_line = s.input_scroll_line ∧
    (handle_key_event ext
      { code := KeyCodeM.char 'v', ctrl := true, super := false,
        shift := false } s).input_scroll_line = s.input_scroll_line := by
  have hundo : output_scroll_ok (undo s) := by
    cases hcu : s.undo_stack with
    | nil =>
      have heq : undo s = s := by
        unfold undo
        rw [hcu]
      rw [heq]
      exact hscroll
    | cons a rest =>
      have heq : undo s =
          { s with
            redo_stack := s.buffer :: s.redo_stack
            undo_stack := rest
            buffer := a
            scroll_pos := 0
            info_message := some "Undo" } := by
        unfold undo
        rw [hcu]
      rw [heq]
      simp [output_scroll_ok]
  have hredo : output_scroll_ok (redo s) := by
    cases hcr : s.redo_stack with
    | nil =>
      have heq : redo s = s := by
        unfold redo
        rw [hcr]
      rw [heq]
      exact hscroll
    | cons a rest =>
      have heq : redo s =
          { s with
            undo_stack := s.buffer :: s.undo_stack
            redo_stack := rest
            buffer := a
            scroll_pos := 0
            info_message := some "Redo" } := by
        unfold redo
        rw [hcr]
      rw [heq]
      simp [output_scroll_ok]
  unfold output_scroll_ok at hscroll
  refine ⟨?_, ?_, ?_, ?_, ?_, ?_, ?_, ?_, ?_, ?_, ?_⟩
  · simp only [handle_key_event]
    simp
    exact adjust_input_scroll_window _
  · simp only [handle_events]
    exact adjust_input_scroll_window _
  · simp only [handle_key_event, output_scroll_ok]
    omega
  · simp only [handle_key_event, output_scroll_ok]
    split <;> rename_i hx <;> simp at hx ⊢ <;> omega
  · simp only [handle_events, handle_mouse_event, output_scroll_ok]
    omega
  · simp only [handle_events, handle_mouse_event, output_scroll_ok]
    split <;> rename_i hx <;> simp at hx ⊢ <;> omega
  · simp only [handle_key_event]
    rw [if_pos (by decide)]
    simpa using hundo
  · simp only [handle_key_event]
    rw [if_pos (by decide)]
    simpa using hredo
  · simp only [handle_key_event]
    rw [if_neg (by decide), if_neg (by decide), if_pos (by decide)]
  · simp only [handle_key_event]
    rw [if_neg (by decide), if_neg (by decide), if_neg (by decide),
      if_pos (by decide)]
  · simp only [handle_key_event]
    rw [if_neg (by decide), if_neg (by decide), if_neg (by decide),
      if_neg (by decide), if_pos (by decide)]
    cases hg : ext.clipboardGet <;> simp [hg]

/-- Witness for the amended C4 at the default state with a typed
character. -/
theorem scroll_invariants_amended_witness :
    input_window_ok (handle_key_event ext0
      { code := KeyCodeM.char 'x', ctrl := false, super := false,
        shift := false } appDefault) ∧
    output_scroll_ok (handle_key_event ext0
      { code := KeyCodeM.pageUp, ctrl := false, super := false,
        shift := false } appDefault) :=
  ⟨(scroll_invariants_amended ext0 appDefault 'x' "t"
      (by unfold output_scroll_ok; decide)).1,
   (scroll_invariants_amended ext0 appDefault 'x' "t"
      (by unfold output_scroll_ok; decide)).2.2.1⟩

/-- Counterexample to claim C4 as stated: from a state satisfying both
anchor invariants (a 12-line buffer scrolled to its last line, input
`"x"`), the plain-edit Enter confirm replaces the buffer with the typed
text but does not clamp the output scroll anchor: afterwards the anchor is
11 while the buffer has a single line, violating
`anchor ≤ max 0 (totalLines - 1)`. -/
theorem scroll_invariant_enter_cex :
    (handle_key_event ext0
        { code := KeyCodeM.enter, ctrl := false, super := false,
          shift := false }
        { appDefault with
            buffer := "l0\nl1\nl2\nl3\nl4\nl5\nl6\nl7\nl8\nl9\nl10\nl11"
            scroll_pos := 11
            input := ['x']
            cursor_pos := 1 }).scroll_pos = 11 ∧
    rustLinesCount
        (handle_key_event ext0
            { code := KeyCodeM.enter, ctrl := false, super := false,
              shift := false }
            { appDefault with
                buffer := "l0\nl1\nl2\nl3\nl4\nl5\nl6\nl7\nl8\nl9\nl10\nl11"
                scroll_pos := 11
                input := ['x']
                cursor_pos := 1 }).buffer.data = 1 ∧
    ¬ output_scroll_ok
        (handle_key_event ext0
            { code := KeyCodeM.enter, ctrl := false, super := false,
              shift := false }
            { appDefault with
                buffer := "l0\nl1\nl2\nl3\nl4\nl5\nl6\nl7\nl8\nl9\nl10\nl11"
                scroll_pos := 11
                input := ['x']
                cursor_pos := 1 }) := by
  refine ⟨?_, ?_, ?_⟩
  · decide
  · decide
  · unfold output_scroll_ok
    decide

/-- The decode table inverts the encode table on all 64 sextets. -/
theorem dec6_enc6 : ∀ n, n < 64 → dec6 (enc6 n) = some n := by decide

/-- No alphabet byte is the padding byte. -/
theorem enc6_ne_61 : ∀ n, n < 64 → enc6 n ≠ 61 := by decide

/-- Encoded sextets are alphabet bytes. -/
theorem enc6_mem : ∀ n, n < 64 → enc6 n ∈ B64TABLE := by decide

/-- No alphabet byte is whitespace. -/
theorem table_not_ws : ∀ b ∈ B64TABLE, isWsByte b = false := by decide

/-- No alphabet byte is the padding byte. -/
theorem table_ne_61 : ∀ b ∈ B64TABLE, b ≠ 61 := by decide

/-- Decoding inverts encoding on every byte sequence. -/
theorem b64_roundtrip : ∀ (s : List Nat), (∀ b ∈ s, b < 256) →
    b64decodeBytes (b64encodeBytes s) = some s
  | [], _ => rfl
  | [b1], h => by
      have hb1 : b1 < 256 := h b1 (by simp)
      have hmod : b1 % 4 * 16 % 16 = 0 := by omega
      have e1 : b1 / 4 * 4 + b1 % 4 * 16 / 16 = b1 := by omega
      simp [b64encodeBytes, b64decodeBytes,
        dec6_enc6 (b1 / 4) (by omega), dec6_enc6 (b1 % 4 * 16) (by omega),
        hmod, e1]
      omega
  | [b1, b2], h => by
      have hb1 : b1 < 256 := h b1 (by simp)
      have hb2 : b2 < 256 := h b2 (by simp)
      have hne : enc6 (b2 % 16 * 4) ≠ 61 := enc6_ne_61 _ (by omega)
      have hmod : b2 % 16 * 4 % 4 = 0 := by omega
      have e1 : b1 / 4 * 4 + (b1 % 4 * 16 + b2 / 16) / 16 = b1 := by omega
      have e2 : (b1 % 4 * 16 + b2 / 16) % 16 * 16 + b2 % 16 * 4 / 4 = b2 := by
        omega
      simp [b64encodeBytes, b64decodeBytes, hne,
        dec6_enc6 (b1 / 4) (by omega),
        dec6_enc6 (b1 % 4 * 16 + b2 / 16) (by omega),
        dec6_enc6 (b2 % 16 * 4) (by omega), hmod, e1, e2]
      omega
  | b1 :: b2 :: b3 :: rest, h => by
      have hb1 : b1 < 256 := h b1 (by simp)
      have hb2 : b2 < 256 := h b2 (by simp)
      have hb3 : b3 < 256 := h b3 (by simp)
      have ih := b64_roundtrip rest (fun b hb => h b (by simp [hb]))
      have hne3 : enc6 (b2 % 16 * 4 + b3 / 64) ≠ 61 := enc6_ne_61 _ (by omega)
      have hne4 : enc6 (b3 % 64) ≠ 61 := enc6_ne_61 _ (by omega)
      have e1 : b1 / 4 * 4 + (b1 % 4 * 16 + b2 / 16) / 16 = b1 := by omega
      have e2 : (b1 % 4 * 16 + b2 / 16) % 16 * 16 +
          (b2 % 16 * 4 + b3 / 64) / 4 = b2 := by omega
      have e3 : (b2 % 16 * 4 + b3 / 64) % 4 * 64 + b3 % 64 = b3 := by omega
      simp [b64encodeBytes, b64decodeBytes, hne3, hne4, ih,
        dec6_enc6 (b1 / 4) (by omega),
        dec6_enc6 (b1 % 4 * 16 + b2 / 16) (by omega),
        dec6_enc6 (b2 % 16 * 4 + b3 / 64) (by omega),
        dec6_enc6 (b3 % 64) (by omega), e1, e2, e3]

/-- An encoding splits into a body of alphabet bytes followed by at most
two padding bytes, with the total length a multiple of four. -/
theorem encode_decompose : ∀ (s : List Nat), (∀ b ∈ s, b < 256) →
    ∃ body npad, b64encodeBytes s = body ++ List.replicate npad 61 ∧
      npad ≤ 2 ∧ (∀ c ∈ body, c ∈ B64TABLE) ∧ (body.length + npad) % 4 = 0
  | [], _ => ⟨[], 0, rfl, by omega, by simp, by simp⟩
  | [b1], h => by
      have hb1 : b1 < 256 := h b1 (by simp)
      refine ⟨[enc6 (b1 / 4), enc6 (b1 % 4 * 16)], 2, ?_, by omega, ?_, by simp⟩
      · simp [b64encodeBytes, List.replicate]
      · intro c hc
        simp only [List.mem_cons, List.not_mem_nil, or_false] at hc
        rcases hc with rfl | rfl
        · exact enc6_mem _ (by omega)
        · exact enc6_mem _ (by omega)
  | [b1, b2], h => by
      have hb1 : b1 < 256 := h b1 (by simp)
      have hb2 : b2 < 256 := h b2 (by simp)
      refine ⟨[enc6 (b1 / 4), enc6 (b1 % 4 * 16 + b2 / 16),
        enc6 (b2 % 16 * 4)], 1, ?_, by omega, ?_, by simp⟩
      · simp [b64encodeBytes, List.replicate]
      · intro c hc
        simp only [List.mem_cons, List.not_mem_nil, or_false] at hc
        rcases hc with rfl | rfl | rfl
        · exact enc6_mem _ (by omega)
        · exact enc6_mem _ (by omega)
        · exact enc6_mem _ (by omega)
  | b1 :: b2 :: b3 :: rest, h => by
      have hb1 : b1 < 256 := h b1 (by simp)
      have hb2 : b2 < 256 := h b2 (by simp)
      have hb3 : b3 < 256 := h b3 (by simp)
      obtain ⟨body, npad, henc, hpad, hmem, hlen⟩ :=
        encode_decompose rest (fun b hb => h b (by simp [hb]))
      refine ⟨enc6 (b1 / 4) :: enc6 (b1 % 4 * 16 + b2 / 16) ::
        enc6 (b2 % 16 * 4 + b3 / 64) :: enc6 (b3 % 64) :: body, npad,
        ?_, hpad, ?_, ?_⟩
      · simp [b64encodeBytes, henc]
      · intro c hc
        simp only [List.mem_cons] at hc
        rcases hc with rfl | rfl | rfl | rfl | h1
        · exact enc6_mem _ (by omega)
        · exact enc6_mem _ (by omega)
        · exact enc6_mem _ (by omega)
        · exact enc6_mem _ (by omega)
        · exact hmem _ h1
      · simp only [List.length_cons]
        omega

/-- Dropping leading elements that fail the predicate is the identity. -/
theorem dropWhile_eq_self_of_not {α : Type} (p : α → Bool) (l : List α)
    (h : ∀ b ∈ l, p b = false) : l.dropWhile p = l := by
  cases l with
  | nil => rfl
  | cons a t =>
    rw [List.dropWhile_cons_of_neg]
    simp [h a (by simp)]

/-- The byte-level trim is the identity on whitespace-free sequences. -/
theorem trimBytes_eq_self (l : List Nat) (h : ∀ b ∈ l, isWsByte b = false) :
    trimBytes l = l := by
  unfold trimBytes
  rw [dropWhile_eq_self_of_not isWsByte l h,
    dropWhile_eq_self_of_not isWsByte l.reverse
      (fun b hb => h b (List.mem_reverse.mp hb)),
    List.reverse_reverse]

/-- Every byte of an encoding is an alphabet byte or the padding byte, so
no byte of an encoding is whitespace. -/
theorem encode_not_ws (s : List Nat) (h : ∀ b ∈ s, b < 256) :
    ∀ c ∈ b64encodeBytes s, isWsByte c = false := by
  obtain ⟨body, npad, henc, -, hmem, -⟩ := encode_decompose s h
  intro c hc
  rw [henc] at hc
  rcases List.mem_append.mp hc with hcb | hcp
  · exact table_not_ws c (hmem c hcb)
  · have : c = 61 := by
      have := List.eq_of_mem_replicate hcp
      exact this
    rw [this]
    rfl

/-- Removing the trailing padding of a body-plus-padding split returns the
body. -/
theorem dropTrailingEq_spec (body : List Nat) (npad : Nat)
    (h : ∀ c ∈ body, c ∈ B64TABLE) :
    dropTrailingEq (body ++ List.replicate npad 61) = body := by
  unfold dropTrailingEq
  rw [List.reverse_append, List.reverse_replicate]
  have hdrop : (List.replicate npad 61 ++ body.reverse).dropWhile
      (fun b => b == 61) = body.reverse.dropWhile (fun b => b == 61) := by
    induction npad with
    | zero => simp
    | succ n ih =>
      rw [List.replicate_succ, List.cons_append, List.dropWhile_cons_of_pos]
      · exact ih
      · simp
  rw [hdrop, dropWhile_eq_self_of_not _ body.reverse
      (fun b hb => by
        have hbm := h b (List.mem_reverse.mp hb)
        simp
        exact table_ne_61 b hbm),
    List.reverse_reverse]

/-- On a whitespace-free body whose length is `npad` short of a multiple of
four (`npad ≤ 2`), `add_base64_padding` appends exactly `npad` padding
bytes. -/
theorem add_padding_body (body : List Nat) (npad : Nat)
    (hmem : ∀ c ∈ body, c ∈ B64TABLE) (hlen : (body.length + npad) % 4 = 0)
    (hpad : npad ≤ 2) :
    add_base64_padding body = body ++ List.replicate npad 61 := by
  simp only [add_base64_padding]
  rw [trimBytes_eq_self body (fun b hb => table_not_ws b (hmem b hb))]
  have hn : (4 - body.length % 4) % 4 = npad := by omega
  rw [hn]
  by_cases h0 : npad = 0
  · subst h0
    simp
  · rw [if_neg h0]

/-- Claim C9: for every byte sequence of a string (valid UTF-8),
`base64_decode (base64_encode s)` returns `ok s`; moreover `base64_decode`
also succeeds (with the same result) on the encoding with its trailing
padding removed, because it first trims the input and appends padding
bytes until the length is a multiple of four. -/
theorem base64_decode_encode_round_trip (s : List Nat)
    (hb : ∀ b ∈ s, b < 256) (hu : utf8Valid s = true) :
    base64_decode (base64_encode s) = Except.ok s ∧
    base64_decode (dropTrailingEq (base64_encode s)) = Except.ok s := by
  obtain ⟨body, npad, henc, hpad, hmem, hlen⟩ := encode_decompose s hb
  have hdec := b64_roundtrip s hb
  have hlen4 : (b64encodeBytes s).length % 4 = 0 := by
    rw [henc]
    simp only [List.length_append, List.length_replicate]
    omega
  constructor
  · simp only [base64_decode, base64_encode]
    have hself : add_base64_padding (b64encodeBytes s) = b64encodeBytes s := by
      simp only [add_base64_padding]
      rw [trimBytes_eq_self _ (encode_not_ws s hb)]
      rw [if_pos (by omega)]
    rw [hself, hdec]
    simp [hu]
  · simp only [base64_decode, base64_encode]
    rw [henc, dropTrailingEq_spec body npad hmem,
      add_padding_body body npad hmem hlen hpad, ← henc, hdec]
    simp [hu]

/-- Witness for C9 at the bytes of `"Hi"`: the encoding is `"SGk="` and
both the padded and the unpadded form decode back to the input. -/
theorem base64_decode_encode_round_trip_witness :
    base64_decode (base64_encode [72, 105]) = Except.ok [72, 105] ∧
    base64_decode (dropTrailingEq (base64_encode [72, 105])) =
      Except.ok [72, 105] :=
  base64_decode_encode_round_trip [72, 105] (by decide) (by decide)

/-- Witness for C5: pushing 600 snapshots from the default state leaves
exactly the 500 newest with the oldest 100 evicted, and all operations
respect the bound. -/
theorem bounded_history_witness :
    ((push_undo appDefault).undo_stack.length ≤ 500 ∧
     (push_undo appDefault).redo_stack = [] ∧
     (undo appDefault).undo_stack.length ≤ 500 ∧
     (undo appDefault).redo_stack.length ≤ 500 ∧
     (redo appDefault).undo_stack.length ≤ 500 ∧
     (redo appDefault).redo_stack.length ≤ 500) ∧
    ((dispatchList appDefault (List.replicate 600 "x")).undo_stack =
        (((appDefault.buffer :: List.replicate 600 "x").dropLast).drop
          100).reverse ∧
     (dispatchList appDefault (List.replicate 600 "x")).undo_stack.length =
       500) :=
  bounded_history appDefault appDefault (List.replicate 600 "x") (by decide)
    rfl (List.length_replicate 600 "x")
